import Mathlib

/-!
Shallow embedding of the etf-trading frontend feed subsystem —
`src/frontend/src/utils/format.js`, `src/frontend/src/utils/sampling.js`
and `src/frontend/src/hooks/useWsFeed.js` (together with the
instrumented variant of the same hook kept elsewhere in the repository)
— and proofs of the specification claims about it.

Modelling conventions:

* JS numbers that the code only stores, compares, and takes `max` of are
  modelled as rationals; the non-finite values (`NaN`, infinities),
  which the code always routes through `Number.isFinite` guards, are
  collapsed into one constructor `JSNum.nan`.
* `undefined` and `null` are both modelled as `Option.none` wherever the
  code treats them alike (`??` skips both, `!= null` rejects both, both
  are falsy); the one construct where a surviving `null` differs —
  `Number(null) = 0` at the end of a `??` chain — keeps a dedicated
  `JSVal.nullv` constructor.
* Host functions are ambient parameters of the embedding: `Date.now()`
  becomes an explicit `now` argument, `Date.parse` becomes a
  `String → Option ℚ` argument (`none` meaning NaN), and `JSON.parse`
  becomes a `String → Option Msg` argument (`none` meaning the parse
  throws).
* String-valued payload fields that the code feeds to `Number(...)`
  (numeric-string coercion) do not occur in any recognized message
  shape and are outside the model.
-/

/-- A JS number: either a finite value or a non-finite one (`NaN` and
the infinities, which this code never distinguishes from each other). -/
inductive JSNum where
  | fin (q : ℚ)
  | nan
  deriving DecidableEq, Repr

/-- `Number.isFinite`. -/
def JSNum.isFin : JSNum → Bool
  | .fin _ => true
  | .nan => false

/-- A JS value sitting in a numeric payload field: a finite number,
a value that `Number(...)` coerces to NaN (`undefined`, objects,
non-numeric strings, NaN itself), or `null` (which `Number` coerces
to `0`). -/
inductive JSVal where
  | num (q : ℚ)
  | nanv
  | nullv
  deriving DecidableEq, Repr

/-- `a ?? b` on a possibly-absent payload value: `none` models an
absent (`undefined`) field and is skipped, and an explicit `null` is
skipped as well; any other value short-circuits. -/
def orJS (a b : Option JSVal) : Option JSVal :=
  match a with
  | none => b
  | some .nullv => b
  | some v => some v

/-- `Number(x)` on the result of a `??` chain
(`Number(undefined) = NaN`, `Number(null) = 0`). -/
def jsNumber : Option JSVal → JSNum
  | none => .nan
  | some (.num q) => .fin q
  | some .nanv => .nan
  | some .nullv => .fin 0

/-- `c₁ || c₂ || ... || d` over string candidates: JS `||` skips the
nullish values (`none`) and the empty string (falsy), and falls back to
the final default. -/
def firstTruthyD : List (Option String) → String → String
  | [], d => d
  | c :: cs, d =>
    match c with
    | some s => if s = "" then firstTruthyD cs d else s
    | none => firstTruthyD cs d

/-- The value found in a `ts` field: a number, a string, or a value of
any other non-nullish type (for which the `typeof` guard in the hook
skips `toMs` entirely). -/
inductive TsVal where
  | num (q : ℚ)
  | str (s : String)
  | other
  deriving DecidableEq, Repr

/-- `format.js` `toMs`: a number is already epoch milliseconds, any
other argument goes through `Date.parse` (modelled by `dParse`, with
`none` as NaN).  The `.other` case is unreachable behind the hook's
`typeof` guard and conservatively yields NaN. -/
def toMs (dParse : String → Option ℚ) : TsVal → JSNum
  | .num q => .fin q
  | .str s =>
    match dParse s with
    | some q => .fin q
    | none => .nan
  | .other => .nan

/-- Timestamp resolution in `ws.onmessage`:
`tsVal = dataRaw.ts ?? msg.ts ?? Date.now()`, then a string or number
goes through `toMs` and any other type falls back to `Date.now()`. -/
def resolveTs (dParse : String → Option ℚ) (dataTs msgTs : Option TsVal)
    (now : ℚ) : JSNum :=
  let tsVal : TsVal :=
    match dataTs with
    | some v => v
    | none =>
      match msgTs with
      | some v => v
      | none => .num now
  match tsVal with
  | .num q => toMs dParse (.num q)
  | .str s => toMs dParse (.str s)
  | .other => .fin now

/-- JS `String.prototype.startsWith`, structurally over the character
lists (Lean's own `String.startsWith` is not kernel-reducible). -/
def jsStartsWith (s p : String) : Bool := p.data.isPrefixOf s.data

/-- A history point, as constructed by `pushPoint`: `t` is the raw
`+t` (possibly non-finite) and the four data fields are the
forward-filled snapshot values (absent while never observed). -/
structure Point where
  t : JSNum
  price : Option ℚ
  inav : Option ℚ
  bu : Option ℚ
  bl : Option ℚ
  deriving DecidableEq, Repr

/-- Constants of `sampling.js`, in milliseconds. -/
def TWO_MIN : ℚ := 2 * 60 * 1000

def TEN_MIN : ℚ := 10 * 60 * 1000

def ONE_HOUR : ℚ := 60 * 60 * 1000

def ONE_SEC : ℚ := 1000

def FIVE_SEC : ℚ := 5 * 1000

def THIRTY_SEC : ℚ := 30 * 1000

def FIVE_MIN : ℚ := 5 * 60 * 1000

/-- The `while` loop over `rules`: the index of the first tier whose
horizon the age does not exceed.  The last tier's horizon is
`Infinity`, so the resulting index stays in `0..3` and the
`rules[idx] || rules[rules.length - 1]` fallback is dead code. -/
def tierIdx (age : ℚ) : ℕ :=
  if age ≤ TWO_MIN then 0
  else if age ≤ TEN_MIN then 1
  else if age ≤ ONE_HOUR then 2
  else 3

/-- `rules[idx].interval`, with the dead `rules[rules.length - 1]`
fallback for indices past the table. -/
def tierInterval (idx : ℕ) : ℚ :=
  if idx = 0 then ONE_SEC
  else if idx = 1 then FIVE_SEC
  else if idx = 2 then THIRTY_SEC
  else FIVE_MIN

/-- The loop body of `decimateRecency`, as structural recursion over
the remaining points: `lk` is the `lastKept` array (`none` modelling
its NaN initialisation) and the `i === arr.length - 1` test becomes
`rest.isEmpty`. -/
def decAux (nowT : ℚ) (lk : ℕ → Option ℚ) : List Point → List Point
  | [] => []
  | p :: rest =>
    match p.t with
    | .nan => decAux nowT lk rest
    | .fin t =>
      let idx := tierIdx (nowT - t)
      let keep : Bool :=
        match lk idx with
        | none => true
        | some s => decide (tierInterval idx ≤ t - s) || rest.isEmpty
      if keep then
        p :: decAux nowT (fun j => if j = idx then some t else lk j) rest
      else
        decAux nowT lk rest

/-- `sampling.js` `decimateRecency` on a non-null array; the ambient
`Date.now()` is the explicit argument `nowT`. -/
def decimateRecency (nowT : ℚ) (arr : List Point) : List Point :=
  if arr.isEmpty then [] else decAux nowT (fun _ => none) arr

/-- `decimateRecency` including the `!arr` null/undefined guard. -/
def decimateRecencyJS (arr : Option (List Point)) (nowT : ℚ) : List Point :=
  match arr with
  | none => []
  | some l => decimateRecency nowT l

/-- `latestRef.current[sym]` (created lazily as `{}`; the all-absent
value is the default below). -/
structure Latest where
  price : Option ℚ
  inav : Option ℚ
  bu : Option ℚ
  bl : Option ℚ
  deriving DecidableEq, Repr

def Latest.empty : Latest := ⟨none, none, none, none⟩

/-- One entry of `rows` (the spec's InstrumentSnapshot). -/
structure Row where
  lastPrice : Option ℚ
  inav : Option ℚ
  bandUpper : Option ℚ
  bandLower : Option ℚ
  lastTs : Option JSNum
  priceTs : Option JSNum
  inavTs : Option JSNum
  deriving DecidableEq, Repr

def Row.empty : Row := ⟨none, none, none, none, none, none, none⟩

/-- The `patch` argument of `pushPoint` (absent keys are `none`). -/
structure Patch where
  price : Option JSNum := none
  inav : Option JSNum := none
  bu : Option JSNum := none
  bl : Option JSNum := none
  deriving DecidableEq, Repr

/-- The mutable state owned by the hook: `rows`, `latestRef.current`,
`histRef.current`, `lastAnyTs`, and the two behaviourally relevant
debug fields (`count` and `lastError`; the display-only `lastTopic`
and `lastRaw` strings are not modelled).  The lazily created JS
objects become total maps with empty defaults. -/
structure St where
  rows : String → Option Row
  latest : String → Latest
  hist : String → List Point
  lastAnyTs : Option JSNum
  debugCount : ℕ
  lastError : Option String

def St.init : St :=
  ⟨fun _ => none, fun _ => Latest.empty, fun _ => [], none, 0, none⟩

/-- `MAX_POINTS = 2 * 60 * 60` in `pushPoint`. -/
def MAX_POINTS : ℕ := 2 * 60 * 60

/-- `buf.push(point)` followed by the capacity trim
`if (buf.length > MAX_POINTS) buf.splice(0, buf.length - MAX_POINTS)`. -/
def capPush (buf : List Point) (p : Point) : List Point :=
  let b := buf ++ [p]
  if MAX_POINTS < b.length then b.drop (b.length - MAX_POINTS) else b

/-- Appending a sequence of points through `capPush` (the history
buffer's whole life). -/
def appendPoints (init ps : List Point) : List Point :=
  ps.foldl capPush init

/-- `pushPoint(sym, t, patch)`: merge the finite fields of `patch`
into `latestRef.current[sym]` (the `patch.x != null &&
Number.isFinite(patch.x)` guard admits exactly a present finite
number), build the forward-filled point, append it under the capacity
cap. -/
def pushPoint (sym : String) (t : JSNum) (patch : Patch) (st : St) : St :=
  let latest0 := st.latest sym
  let upd : Option JSNum → Option ℚ → Option ℚ := fun v old =>
    match v with
    | some (.fin q) => some q
    | _ => old
  let latest1 : Latest :=
    { price := upd patch.price latest0.price
      inav := upd patch.inav latest0.inav
      bu := upd patch.bu latest0.bu
      bl := upd patch.bl latest0.bl }
  let point : Point := ⟨t, latest1.price, latest1.inav, latest1.bu, latest1.bl⟩
  { st with
    latest := fun s => if s = sym then latest1 else st.latest s
    hist := fun s => if s = sym then capPush (st.hist sym) point else st.hist s }

/-- The normalized payload object (`dataRaw`): the union of the fields
the two topic families read, each possibly absent.  Identifier fields
are strings, numeric fields are `JSVal`s, `ts` is a `TsVal`. -/
structure DataRaw where
  security_id : Option String := none
  symbol : Option String := none
  ticker : Option String := none
  etf_id : Option String := none
  last : Option JSVal := none
  mid : Option JSVal := none
  price : Option JSVal := none
  inav : Option JSVal := none
  value : Option JSVal := none
  band_upper : Option JSVal := none
  bandUpper : Option JSVal := none
  band_lower : Option JSVal := none
  bandLower : Option JSVal := none
  ts : Option TsVal := none
  deriving DecidableEq, Repr

/-- A parsed JSON document (`msg`): the envelope fields plus, for the
flat message shape, the remaining top-level payload-like keys
(`flat`).  The `{...msg}` copy with `topic/type/channel/version`
deleted keeps the top-level `ts`, which `msgFlatData` reinstates. -/
structure Msg where
  topic : Option String := none
  type_ : Option String := none
  channel : Option String := none
  ts : Option TsVal := none
  data : Option DataRaw := none
  payload : Option DataRaw := none
  flat : DataRaw := {}
  deriving DecidableEq, Repr

def msgFlatData (m : Msg) : DataRaw :=
  { m.flat with ts := m.ts }

/-- `msg.data ?? msg.payload ?? (copy of msg minus envelope keys)`. -/
def msgData (m : Msg) : DataRaw :=
  match m.data with
  | some d => d
  | none =>
    match m.payload with
    | some d => d
    | none => msgFlatData m

/-- `msg.topic || msg.type || msg.channel || ""`. -/
def resolveTopic (m : Msg) : String :=
  firstTruthyD [m.topic, m.type_, m.channel] ""

/-- `prev[sym]?.lastTs || 0`: an absent row, an absent `lastTs`, or a
falsy one (NaN; also `0` itself, for which `|| 0` returns the same
`0`) all give `0`. -/
def lastTsOrZero (r : Option Row) : ℚ :=
  match r with
  | none => 0
  | some row =>
    match row.lastTs with
    | some (.fin q) => q
    | _ => 0

/-- `Math.max(ts, z)` with a finite `z` (as produced by
`lastTsOrZero`); NaN propagates. -/
def jsMax (a : JSNum) (b : ℚ) : JSNum :=
  match a with
  | .fin q => .fin (max q b)
  | .nan => .nan

/-- The `prices.*` branch of `ws.onmessage`.  The
`if (sym && Number.isFinite(price))` guard is embedded as the match on
the coerced price plus the truthiness test on `sym`. -/
def applyPrices (ts : JSNum) (d : DataRaw) (st : St) : St :=
  let sym := firstTruthyD [d.security_id, d.symbol, d.ticker] ("UNKNOWN")
  match jsNumber (orJS d.last (orJS d.mid d.price)) with
  | .fin p =>
    if sym = "" then st
    else
      let prev := st.rows sym
      let row : Row :=
        { prev.getD Row.empty with
            lastPrice := some p
            lastTs := some (jsMax ts (lastTsOrZero prev))
            priceTs := some ts }
      let st1 := { st with rows := fun s => if s = sym then some row else st.rows s }
      pushPoint sym ts { price := some (.fin p) } st1
  | .nan => st

/-- The `inav.*` branch of `ws.onmessage`. -/
def applyInav (ts : JSNum) (d : DataRaw) (st : St) : St :=
  let sym := firstTruthyD [d.etf_id, d.security_id, d.symbol, d.ticker] ("UNKNOWN")
  let bandU := jsNumber (orJS d.band_upper d.bandUpper)
  let bandL := jsNumber (orJS d.band_lower d.bandLower)
  match jsNumber (orJS d.inav d.value) with
  | .fin v =>
    if sym = "" then st
    else
      let prev := st.rows sym
      let row : Row :=
        { prev.getD Row.empty with
            inav := some v
            bandUpper :=
              match bandU with
              | .fin q => some q
              | .nan => (prev.getD Row.empty).bandUpper
            bandLower :=
              match bandL with
              | .fin q => some q
              | .nan => (prev.getD Row.empty).bandLower
            lastTs := some (jsMax ts (lastTsOrZero prev))
            inavTs := some ts }
      let st1 := { st with rows := fun s => if s = sym then some row else st.rows s }
      pushPoint sym ts
        { inav := some (.fin v)
          bu :=
            match bandU with
            | .fin q => some (.fin q)
            | .nan => none
          bl :=
            match bandL with
            | .fin q => some (.fin q)
            | .nan => none } st1
  | .nan => st

/-- One normalized record through the tail of `ws.onmessage`:
`setLastAnyTs`, the debug counter, then the topic dispatch.  The
`fx.spot | fx.forwards` arm and the implicit fall-through for every
other topic both leave the aggregate state untouched. -/
def applyRecord (topic : String) (ts : JSNum) (d : DataRaw) (st : St) : St :=
  let st1 := { st with lastAnyTs := some ts, debugCount := st.debugCount + 1 }
  if jsStartsWith topic ("prices.") then applyPrices ts d st1
  else if jsStartsWith topic ("inav.") then applyInav ts d st1
  else st1

/-- Process one parsed document: envelope normalization, timestamp
resolution, then `applyRecord`. -/
def processMsg (dParse : String → Option ℚ) (now : ℚ) (st : St) (m : Msg) : St :=
  let d := msgData m
  applyRecord (resolveTopic m) (resolveTs dParse d.ts m.ts now) d st

/-- Splitting a character list at every newline (producing an empty
piece for each excess newline in a run). -/
def splitNlAux : List Char → List Char → List String
  | [], acc => [String.mk acc.reverse]
  | c :: cs, acc =>
    if c = '\n' then String.mk acc.reverse :: splitNlAux cs []
    else splitNlAux cs (c :: acc)

/-- `payload.split(/\n+/).filter(Boolean)`: splitting on single
newlines and then dropping the empty pieces coincides with splitting
on newline runs (the regex form), including at the frame borders. -/
def splitFrame (payload : String) : List String :=
  (splitNlAux payload.data []).filter (fun s => s ≠ "")

/-- The chunk loop of `hooks/useWsFeed.js`'s `ws.onmessage`: one `try`
wraps the whole loop, so the first document on which `JSON.parse`
throws (modelled by `jsonParse` returning `none`) lands in the outer
`catch`, which records the error in the debug state — and the
remaining documents of the frame are not processed. -/
def runChunks (jsonParse : String → Option Msg) (dParse : String → Option ℚ)
    (now : ℚ) (st : St) : List String → St
  | [] => st
  | c :: rest =>
    match jsonParse c with
    | none => { st with lastError := some ("onmessage") }
    | some m => runChunks jsonParse dParse now (processMsg dParse now st m) rest

/-- The chunk loop of the instrumented variant of the hook kept in the
repository: `JSON.parse` sits in its own per-chunk `try`, a failure
logs and `continue`s, so the later documents of the frame are still
processed. -/
def runChunksIsolated (jsonParse : String → Option Msg) (dParse : String → Option ℚ)
    (now : ℚ) (st : St) : List String → St
  | [] => st
  | c :: rest =>
    match jsonParse c with
    | none => runChunksIsolated jsonParse dParse now st rest
    | some m => runChunksIsolated jsonParse dParse now (processMsg dParse now st m) rest

/-- `ws.onmessage` on one (already text-decoded) frame, canonical
hook. -/
def onFrame (jsonParse : String → Option Msg) (dParse : String → Option ℚ)
    (now : ℚ) (st : St) (payload : String) : St :=
  runChunks jsonParse dParse now st (splitFrame payload)

/-- `ws.onmessage` on one frame, instrumented variant. -/
def onFrameIsolated (jsonParse : String → Option Msg) (dParse : String → Option ℚ)
    (now : ℚ) (st : St) (payload : String) : St :=
  runChunksIsolated jsonParse dParse now st (splitFrame payload)

/-- `scheduleReconnect`: increment the attempt counter, compute the
delay `Math.min(30000, Math.round(Math.pow(2, a) * 250))` (exact on
naturals, so the rounding is the identity).  Returns the new counter
and the delay. -/
def scheduleReconnect (attempt : ℕ) : ℕ × ℕ :=
  let a := attempt + 1
  (a, min 30000 (2 ^ a * 250))

/-- The delay scheduled when the counter has just reached `a`. -/
def backoffDelay (a : ℕ) : ℕ := min 30000 (2 ^ a * 250)

/-- The connection-lifecycle events that touch the attempt counter:
`ws.onopen` resets it to `0`, each failed/closed cycle runs
`scheduleReconnect`. -/
inductive ConnEv where
  | opened
  | failed
  deriving DecidableEq, Repr

def stepAttempt (a : ℕ) : ConnEv → ℕ
  | .opened => 0
  | .failed => (scheduleReconnect a).1

def attemptAfter (a0 : ℕ) (evs : List ConnEv) : ℕ :=
  evs.foldl stepAttempt a0

/-- The `lastTs` field of a snapshot row, if any. -/
def rowLastTs (r : Option Row) : Option JSNum := r.bind Row.lastTs

/-- The instrument identifier resolved by the `inav.*` branch
(`dataRaw.etf_id || dataRaw.security_id || dataRaw.symbol ||
dataRaw.ticker || "UNKNOWN"`). -/
def inavSym (d : DataRaw) : String :=
  firstTruthyD [d.etf_id, d.security_id, d.symbol, d.ticker] ("UNKNOWN")

/-- The instrument identifier resolved by the `prices.*` branch
(`dataRaw.security_id || dataRaw.symbol || dataRaw.ticker ||
"UNKNOWN"`). -/
def pricesSym (d : DataRaw) : String :=
  firstTruthyD [d.security_id, d.symbol, d.ticker] ("UNKNOWN")

/-- The merge `pushPoint` performs on `latestRef.current[sym]`: a
patch field overwrites the cached value only when it is present and
finite. -/
def mergeLatest (l : Latest) (patch : Patch) : Latest :=
  let upd : Option JSNum → Option ℚ → Option ℚ := fun v old =>
    match v with
    | some (.fin q) => some q
    | _ => old
  { price := upd patch.price l.price
    inav := upd patch.inav l.inav
    bu := upd patch.bu l.bu
    bl := upd patch.bl l.bl }

/-- Two consecutive kept points whose ages fall in the same tier are at
least that tier's minimum spacing apart. -/
def spacedRel (nowT : ℚ) (a b : Point) : Prop :=
  ∀ ta tb, a.t = JSNum.fin ta → b.t = JSNum.fin tb →
    tierIdx (nowT - ta) = tierIdx (nowT - tb) →
    tierInterval (tierIdx (nowT - ta)) ≤ tb - ta

/-! Concrete fixtures for the frame-level and witness theorems. -/

/-- A valid `prices.tick` document (JSON braces written as escapes). -/
def goodDoc : String :=
  "\x7b\"topic\":\"prices.tick\",\"data\":\x7b\"symbol\":\"X\",\"last\":101.5\x7d\x7d"

/-- A fragment on which `JSON.parse` throws. -/
def badDoc : String := "not-json"

def frameGoodBad : String := goodDoc ++ "\n" ++ badDoc

def frameBadGood : String := badDoc ++ "\n" ++ goodDoc

/-- The parse of `goodDoc` (`101.5 = 203/2`). -/
def msgGoodDoc : Msg :=
  { topic := some ("prices.tick")
    data := some { symbol := some ("X"), last := some (.num (203 / 2)) } }

/-- The host `JSON.parse` restricted to the two fixture documents:
`goodDoc` parses to `msgGoodDoc`, anything else (in particular
`badDoc`) throws. -/
def parseEx : String → Option Msg :=
  fun s => if s = goodDoc then some msgGoodDoc else none

/-- The snapshot row produced by processing `goodDoc` at time 1000 from
scratch. -/
def rowX : Row :=
  { Row.empty with
      lastPrice := some (203 / 2)
      lastTs := some (.fin 1000)
      priceTs := some (.fin 1000) }

/-- Fixture record for the forward-fill witness: a price tick of 101
for symbol ETF (no inav or band fields). -/
def dETFprice : DataRaw := { symbol := some ("ETF"), last := some (.num 101) }

/-- Fixture state for the forward-fill witness: one prior price tick
of 101 for symbol ETF. -/
def stETF : St := applyRecord ("prices.tick") (.fin 1) dETFprice St.init

/-- Fixture record for the forward-fill witness: an `inav.tick` with
only a finite `inav` field and no price field. -/
def dETF : DataRaw := { symbol := some ("ETF"), inav := some (.num 100) }

/-- Fixture record for the monotonicity witness. -/
def dY : DataRaw := { symbol := some ("Y"), last := some (.num 10) }

/-- Fixture state for the monotonicity witness: one prior price tick
for symbol Y at time 7. -/
def stY : St := applyRecord ("prices.tick") (.fin 7) dY St.init

/-! Helper lemmas. -/

lemma firstTruthyD_ne_empty : ∀ (cs : List (Option String)) (d : String),
    d ≠ "" → firstTruthyD cs d ≠ "" := by
  intro cs
  induction cs with
  | nil => intro d hd; simpa [firstTruthyD] using hd
  | cons c cs ih =>
    intro d hd
    cases c with
    | none => simpa [firstTruthyD] using ih d hd
    | some s =>
      by_cases hs : s = ""
      · simpa [firstTruthyD, hs] using ih d hd
      · simp only [firstTruthyD, if_neg hs]
        exact hs

lemma inav_not_prices (topic : String) (h : jsStartsWith topic ("inav.") = true) :
    jsStartsWith topic ("prices.") = false := by
  unfold jsStartsWith at h ⊢
  rw [List.isPrefixOf_iff_prefix] at h
  rw [Bool.eq_false_iff]
  intro hcontra
  obtain ⟨t, ht⟩ := h
  obtain ⟨u, hu⟩ := List.isPrefixOf_iff_prefix.mp hcontra
  rw [← ht] at hu
  have hi : ("inav.").data = ['i', 'n', 'a', 'v', '.'] := rfl
  have hp : ("prices.").data = ['p', 'r', 'i', 'c', 'e', 's', '.'] := rfl
  rw [hi, hp] at hu
  simp only [List.cons_append] at hu
  injection hu with h1 _
  exact absurd h1 (by decide)

lemma capPush_eq (buf : List Point) (p : Point) (h : buf.length ≤ MAX_POINTS) :
    capPush buf p = (buf ++ [p]).drop (buf.length + 1 - MAX_POINTS) := by
  simp only [capPush]
  rcases Nat.lt_or_ge buf.length MAX_POINTS with hlt | hge
  · have h1 : ¬ MAX_POINTS < (buf ++ [p]).length := by
      simp only [List.length_append, List.length_singleton]
      omega
    rw [if_neg h1]
    have h2 : buf.length + 1 - MAX_POINTS = 0 := by omega
    rw [h2, List.drop_zero]
  · have heq : buf.length = MAX_POINTS := le_antisymm h hge
    have h1 : MAX_POINTS < (buf ++ [p]).length := by
      simp only [List.length_append, List.length_singleton]
      omega
    rw [if_pos h1]
    have h2 : (buf ++ [p]).length - MAX_POINTS = buf.length + 1 - MAX_POINTS := by
      simp only [List.length_append, List.length_singleton]
    rw [h2]

lemma capPush_len_le (buf : List Point) (p : Point) (h : buf.length ≤ MAX_POINTS) :
    (capPush buf p).length ≤ MAX_POINTS := by
  rw [capPush_eq buf p h]
  simp only [List.length_drop, List.length_append, List.length_singleton]
  omega

lemma capPush_getLast? (buf : List Point) (p : Point) :
    (capPush buf p).getLast? = some p := by
  simp only [capPush]
  split
  · rename_i hlen
    have hle : (buf ++ [p]).length - MAX_POINTS ≤ buf.length := by
      simp only [List.length_append, List.length_singleton]
      have : 0 < MAX_POINTS := by norm_num [MAX_POINTS]
      omega
    rw [List.drop_append_of_le_length hle]
    exact List.getLast?_concat _
  · exact List.getLast?_concat _

lemma appendPoints_eq : ∀ (ps init : List Point), init.length ≤ MAX_POINTS →
    appendPoints init ps = (init ++ ps).drop (init.length + ps.length - MAX_POINTS) := by
  intro ps
  induction ps with
  | nil =>
    intro init h
    simp only [appendPoints, List.foldl_nil, List.append_nil, List.length_nil,
      Nat.add_zero]
    rw [Nat.sub_eq_zero_of_le h, List.drop_zero]
  | cons p ps ih =>
    intro init h
    have hstep : appendPoints init (p :: ps) = appendPoints (capPush init p) ps := rfl
    rw [hstep, ih (capPush init p) (capPush_len_le init p h)]
    rw [capPush_eq init p h]
    have hd0 : init.length + 1 - MAX_POINTS ≤ (init ++ [p]).length := by
      simp only [List.length_append, List.length_singleton]
      omega
    rw [← List.drop_append_of_le_length hd0, List.drop_drop]
    have hl : (init ++ [p]) ++ ps = init ++ p :: ps := by simp
    rw [hl]
    have hlen : ((init ++ [p]).drop (init.length + 1 - MAX_POINTS)).length
        = init.length + 1 - (init.length + 1 - MAX_POINTS) := by
      simp only [List.length_drop, List.length_append, List.length_singleton]
    have harith :
        init.length + 1 - MAX_POINTS
            + (((init ++ [p]).drop (init.length + 1 - MAX_POINTS)).length
                + ps.length - MAX_POINTS)
          = init.length + (p :: ps).length - MAX_POINTS := by
      rw [hlen]
      simp only [List.length_cons]
      omega
    rw [harith]

/-! Claim theorems. -/

/-- Claim C3: after appending more than the capacity of 7200 points to
one instrument's history buffer, the buffer length equals 7200 and the
retained points are exactly the most recent 7200 appended points in
arrival order; moreover no append sequence starting within capacity
ever leaves the buffer above capacity. -/
theorem history_capacity_bound (ps : List Point) (h : MAX_POINTS < ps.length) :
    appendPoints [] ps = ps.drop (ps.length - MAX_POINTS) ∧
    (appendPoints [] ps).length = MAX_POINTS ∧
    MAX_POINTS = 7200 ∧
    ∀ (init qs : List Point), init.length ≤ MAX_POINTS →
      (appendPoints init qs).length ≤ MAX_POINTS := by
  have h0 := appendPoints_eq ps [] (by simp)
  simp only [List.nil_append, List.length_nil, Nat.zero_add] at h0
  refine ⟨h0, ?_, by norm_num [MAX_POINTS], ?_⟩
  · rw [h0]
    simp only [List.length_drop]
    omega
  · intro init qs hi
    rw [appendPoints_eq qs init hi]
    simp only [List.length_drop, List.length_append]
    omega

/-- Witness for C3 at a concrete over-capacity input: 7201 appended
points leave exactly 7200 in the buffer. -/
theorem history_capacity_bound_witness :
    (appendPoints [] (List.replicate 7201 ⟨JSNum.fin 0, none, none, none, none⟩)).length
      = 7200 := by
  have h := history_capacity_bound
    (List.replicate 7201 ⟨JSNum.fin 0, none, none, none, none⟩)
    (by rw [List.length_replicate]; norm_num [MAX_POINTS])
  have h2 := h.2.1
  rw [h.2.2.1] at h2
  exact h2

/-- Claim C6: the reconnect delay scheduled after the k-th consecutive
failed/closed cycle equals min(30000, 250 * 2^k) ms; the attempt
counter increments on each failed cycle and resets to 0 on every
successful open; the delays at attempt counts 1..5 are 500, 1000,
2000, 4000, 8000 ms, and the delay never exceeds the 30000 ms cap for
larger attempt counts. -/
theorem reconnect_backoff_schedule :
    (∀ a, scheduleReconnect a = (a + 1, backoffDelay (a + 1))) ∧
    (∀ a0 evs, attemptAfter a0 (evs ++ [ConnEv.opened]) = 0) ∧
    (∀ a0 k, attemptAfter a0 (ConnEv.opened :: List.replicate k ConnEv.failed) = k) ∧
    (∀ k, backoffDelay k = min 30000 (250 * 2 ^ k)) ∧
    backoffDelay 1 = 500 ∧ backoffDelay 2 = 1000 ∧ backoffDelay 3 = 2000 ∧
    backoffDelay 4 = 4000 ∧ backoffDelay 5 = 8000 ∧
    ∀ k, backoffDelay (6 + k) ≤ 30000 := by
  have hrep : ∀ k a, List.foldl stepAttempt a (List.replicate k ConnEv.failed) = a + k := by
    intro k
    induction k with
    | zero => intro a; simp
    | succ n ih =>
      intro a
      rw [List.replicate_succ, List.foldl_cons, ih]
      simp only [stepAttempt, scheduleReconnect]
      omega
  refine ⟨fun a => rfl, ?_, ?_, ?_, by decide, by decide, by decide, by decide, by decide, ?_⟩
  · intro a0 evs
    unfold attemptAfter
    rw [List.foldl_append]
    rfl
  · intro a0 k
    unfold attemptAfter
    rw [List.foldl_cons]
    have h0 : stepAttempt a0 ConnEv.opened = 0 := rfl
    rw [h0, hrep k 0]
    omega
  · intro k
    unfold backoffDelay
    rw [Nat.mul_comm]
  · intro k
    exact Nat.min_le_left _ _

/-- Claim C8: a record whose topic is not in the prices. or inav.
families (for example fx.spot) updates the global last-any-event
timestamp but leaves every snapshot row, every history buffer, and the
latest-values cache unchanged. -/
theorem unknown_topic_noop (topic : String) (ts : JSNum) (d : DataRaw) (st : St)
    (h1 : jsStartsWith topic ("prices.") = false)
    (h2 : jsStartsWith topic ("inav.") = false) :
    (applyRecord topic ts d st).rows = st.rows ∧
    (applyRecord topic ts d st).hist = st.hist ∧
    (applyRecord topic ts d st).latest = st.latest ∧
    (applyRecord topic ts d st).lastAnyTs = some ts := by
  unfold applyRecord
  rw [h1, h2]
  simp only [Bool.false_eq_true, if_false]
  exact ⟨trivial, trivial, trivial, trivial⟩

/-- Witness for C8 at the concrete topic fx.spot. -/
theorem unknown_topic_noop_witness :
    (applyRecord ("fx.spot") (JSNum.fin 42) {} St.init).rows = St.init.rows ∧
    (applyRecord ("fx.spot") (JSNum.fin 42) {} St.init).hist = St.init.hist ∧
    (applyRecord ("fx.spot") (JSNum.fin 42) {} St.init).latest = St.init.latest ∧
    (applyRecord ("fx.spot") (JSNum.fin 42) {} St.init).lastAnyTs = some (JSNum.fin 42) :=
  unknown_topic_noop ("fx.spot") (JSNum.fin 42) {} St.init (by decide) (by decide)

/-! Decimator lemmas. -/

lemma decAux_cons (nowT : ℚ) (lk : ℕ → Option ℚ) (p : Point) (rest : List Point) :
    decAux nowT lk (p :: rest) =
      match p.t with
      | .nan => decAux nowT lk rest
      | .fin t =>
        if (match lk (tierIdx (nowT - t)) with
            | none => true
            | some s => decide (tierInterval (tierIdx (nowT - t)) ≤ t - s) || rest.isEmpty)
        then p :: decAux nowT (fun j => if j = tierIdx (nowT - t) then some t else lk j) rest
        else decAux nowT lk rest := by
  rw [decAux]

lemma decAux_cons_nan (nowT : ℚ) (lk : ℕ → Option ℚ) (p : Point) (rest : List Point)
    (h : p.t = JSNum.nan) :
    decAux nowT lk (p :: rest) = decAux nowT lk rest := by
  rw [decAux_cons, h]

lemma decAux_cons_fin (nowT : ℚ) (lk : ℕ → Option ℚ) (p : Point) (rest : List Point)
    (t : ℚ) (h : p.t = JSNum.fin t) :
    decAux nowT lk (p :: rest) =
      if (match lk (tierIdx (nowT - t)) with
          | none => true
          | some s => decide (tierInterval (tierIdx (nowT - t)) ≤ t - s) || rest.isEmpty)
      then p :: decAux nowT (fun j => if j = tierIdx (nowT - t) then some t else lk j) rest
      else decAux nowT lk rest := by
  rw [decAux_cons, h]

lemma decAux_sublist (nowT : ℚ) :
    ∀ (l : List Point) (lk : ℕ → Option ℚ), (decAux nowT lk l).Sublist l := by
  intro l
  induction l with
  | nil => intro lk; simp [decAux]
  | cons p rest ih =>
    intro lk
    cases hpt : p.t with
    | fin t =>
      rw [decAux_cons_fin nowT lk p rest t hpt]
      split
      · exact (ih _).cons₂ p
      · exact (ih lk).cons p
    | nan =>
      rw [decAux_cons_nan nowT lk p rest hpt]
      exact (ih lk).cons p

lemma getLast?_cons_of_getLast? (x : Point) (l : List Point) (p : Point)
    (h : l.getLast? = some p) : (x :: l).getLast? = some p := by
  cases l with
  | nil => simp at h
  | cons y ys => rw [List.getLast?_cons_cons]; exact h

lemma decAux_getLast? (nowT : ℚ) :
    ∀ (l : List Point) (p : Point) (q : ℚ), l.getLast? = some p → p.t = JSNum.fin q →
      ∀ lk, (decAux nowT lk l).getLast? = some p := by
  intro l
  induction l with
  | nil => intro p q h _ _; simp at h
  | cons x rest ih =>
    intro p q hlast ht lk
    cases rest with
    | nil =>
      have hx : x = p := by simpa using hlast
      subst hx
      rw [decAux_cons_fin nowT lk x [] q ht]
      have hkeep : (match lk (tierIdx (nowT - q)) with
          | none => true
          | some s =>
            decide (tierInterval (tierIdx (nowT - q)) ≤ q - s)
              || List.isEmpty ([] : List Point)) = true := by
        cases lk (tierIdx (nowT - q)) <;> simp
      rw [if_pos hkeep]
      rfl
    | cons y rest' =>
      rw [List.getLast?_cons_cons] at hlast
      cases hxt : x.t with
      | nan =>
        rw [decAux_cons_nan nowT lk x (y :: rest') hxt]
        exact ih p q hlast ht lk
      | fin t =>
        rw [decAux_cons_fin nowT lk x (y :: rest') t hxt]
        split
        · exact getLast?_cons_of_getLast? x _ p (ih p q hlast ht _)
        · exact ih p q hlast ht lk

lemma decAux_head_spaced (nowT : ℚ) :
    ∀ (l : List Point) (lk : ℕ → Option ℚ) (q : Point) (rest' : List Point),
      decAux nowT lk l = q :: rest' → rest' ≠ [] →
      ∀ (tq s : ℚ), q.t = JSNum.fin tq →
        lk (tierIdx (nowT - tq)) = some s →
        tierInterval (tierIdx (nowT - tq)) ≤ tq - s := by
  intro l
  induction l with
  | nil => intro lk q rest' heq; simp [decAux] at heq
  | cons p rest ih =>
    intro lk q rest' heq hne tq s hqt hlk
    cases hpt : p.t with
    | nan =>
      rw [decAux_cons_nan nowT lk p rest hpt] at heq
      exact ih lk q rest' heq hne tq s hqt hlk
    | fin t =>
      rw [decAux_cons_fin nowT lk p rest t hpt] at heq
      by_cases hkeep : (match lk (tierIdx (nowT - t)) with
          | none => true
          | some u => decide (tierInterval (tierIdx (nowT - t)) ≤ t - u) || rest.isEmpty) = true
      · rw [if_pos hkeep] at heq
        injection heq with hpq hrest
        subst hpq
        rw [hpt] at hqt
        injection hqt with htq
        subst htq
        have hrestne : rest ≠ [] := by
          intro hr
          subst hr
          simp only [show decAux nowT (fun j => if j = tierIdx (nowT - t) then some t else lk j) [] = [] from rfl] at hrest
          exact hne hrest.symm
        rw [hlk] at hkeep
        cases rest with
        | nil => exact absurd rfl hrestne
        | cons a as => simpa using hkeep
      · rw [if_neg hkeep] at heq
        exact ih lk q rest' heq hne tq s hqt hlk

lemma decAux_chain (nowT : ℚ) :
    ∀ (l : List Point) (lk : ℕ → Option ℚ),
      List.Chain' (spacedRel nowT) ((decAux nowT lk l).dropLast) := by
  intro l
  induction l with
  | nil => intro lk; simp [decAux]
  | cons p rest ih =>
    intro lk
    cases hpt : p.t with
    | nan =>
      rw [decAux_cons_nan nowT lk p rest hpt]
      exact ih lk
    | fin t =>
      rw [decAux_cons_fin nowT lk p rest t hpt]
      split
      · cases hout : decAux nowT (fun j => if j = tierIdx (nowT - t) then some t else lk j) rest with
        | nil => simp
        | cons qq more =>
          rw [List.dropLast_cons₂, List.chain'_cons']
          constructor
          · intro y hy
            cases more with
            | nil => simp at hy
            | cons m ms =>
              rw [List.dropLast_cons₂] at hy
              simp only [List.head?_cons, Option.mem_def, Option.some.injEq] at hy
              subst hy
              intro ta tb hpa hqb htier
              rw [hpt] at hpa
              injection hpa with hta
              subst hta
              have hlkv : (fun j => if j = tierIdx (nowT - t) then some t else lk j)
                  (tierIdx (nowT - tb)) = some t := by
                rw [← htier]
                simp
              have hsp := decAux_head_spaced nowT rest
                (fun j => if j = tierIdx (nowT - t) then some t else lk j)
                qq (m :: ms) hout (by simp) tb t hqb hlkv
              rw [htier]
              exact hsp
          · have hch := ih (fun j => if j = tierIdx (nowT - t) then some t else lk j)
            rw [hout] at hch
            exact hch
      · exact ih lk

/-- Claim C4: for every non-empty input series whose final point has a
finite timestamp (every HistoryPoint carries one) and every value of
now, the last element of the decimated output equals the last element
of the input. -/
theorem decimate_keeps_last (nowT : ℚ) (arr : List Point) (p : Point) (q : ℚ)
    (hlast : arr.getLast? = some p) (ht : p.t = JSNum.fin q) :
    (decimateRecency nowT arr).getLast? = arr.getLast? := by
  rw [hlast]
  unfold decimateRecency
  split
  · rename_i h
    rw [List.isEmpty_iff.mp h] at hlast
    simp at hlast
  · exact decAux_getLast? nowT arr p q hlast ht (fun _ => none)

/-- Witness for C4 at a concrete two-point series. -/
theorem decimate_keeps_last_witness :
    (decimateRecency 0 [⟨JSNum.fin 1, none, none, none, none⟩,
        ⟨JSNum.fin 2, some 3, none, none, none⟩]).getLast?
      = [(⟨JSNum.fin 1, none, none, none, none⟩ : Point),
         ⟨JSNum.fin 2, some 3, none, none, none⟩].getLast? :=
  decimate_keeps_last 0 _ ⟨JSNum.fin 2, some 3, none, none, none⟩ 2 (by decide) rfl

/-- Claim C5: in the decimator's output, every pair of consecutive
kept points whose ages fall in the same tier is spaced by at least
that tier's minimum interval, except for the pair ending at the forced
final point (excluded here by dropping the last output element). -/
theorem decimate_tier_spacing (nowT : ℚ) (arr : List Point) :
    List.Chain' (spacedRel nowT) ((decimateRecency nowT arr).dropLast) := by
  unfold decimateRecency
  split
  · simp
  · exact decAux_chain nowT arr (fun _ => none)

/-- Claim C10: the decimator's output is a subsequence of its input
(hence order-preserving, element-of, and no longer than the input),
and an empty or absent input yields an empty output.  The embedding is
a pure function, so input mutation cannot occur by construction. -/
theorem decimate_subsequence (nowT : ℚ) (arr : List Point) :
    (decimateRecency nowT arr).Sublist arr ∧
    (decimateRecency nowT arr).length ≤ arr.length ∧
    (∀ p, p ∈ decimateRecency nowT arr → p ∈ arr) ∧
    decimateRecencyJS none nowT = [] ∧
    decimateRecency nowT [] = [] := by
  have hsub : (decimateRecency nowT arr).Sublist arr := by
    unfold decimateRecency
    split
    · exact List.nil_sublist arr
    · exact decAux_sublist nowT arr (fun _ => none)
  exact ⟨hsub, hsub.length_le, fun p hp => hsub.subset hp, rfl, rfl⟩

/-! Aggregator lemmas and the remaining claims. -/

lemma lastTsOrZero_of (r : Option Row) (q0 : ℚ)
    (h : rowLastTs r = some (JSNum.fin q0)) : lastTsOrZero r = q0 := by
  cases r with
  | none => simp [rowLastTs] at h
  | some row =>
    simp only [rowLastTs, Option.some_bind] at h
    simp [lastTsOrZero, h]

lemma applyPrices_rows_lastTs (ts : JSNum) (d : DataRaw) (st0 : St) (s : String) :
    (applyPrices ts d st0).rows s = st0.rows s ∨
    rowLastTs ((applyPrices ts d st0).rows s)
      = some (jsMax ts (lastTsOrZero (st0.rows s))) := by
  unfold applyPrices
  rcases hjs : jsNumber (orJS d.last (orJS d.mid d.price)) with p | _
  · simp only [hjs]
    by_cases hsym : firstTruthyD [d.security_id, d.symbol, d.ticker] ("UNKNOWN") = ""
    · rw [if_pos hsym]
      left
      rfl
    · rw [if_neg hsym]
      by_cases hs : s = firstTruthyD [d.security_id, d.symbol, d.ticker] ("UNKNOWN")
      · right
        subst hs
        simp [pushPoint, rowLastTs]
      · left
        simp [pushPoint, hs]
  · simp only [hjs]
    left
    trivial

lemma applyInav_rows_lastTs (ts : JSNum) (d : DataRaw) (st0 : St) (s : String) :
    (applyInav ts d st0).rows s = st0.rows s ∨
    rowLastTs ((applyInav ts d st0).rows s)
      = some (jsMax ts (lastTsOrZero (st0.rows s))) := by
  unfold applyInav
  rcases hjs : jsNumber (orJS d.inav d.value) with p | _
  · simp only [hjs]
    by_cases hsym : firstTruthyD [d.etf_id, d.security_id, d.symbol, d.ticker] ("UNKNOWN") = ""
    · rw [if_pos hsym]
      left
      rfl
    · rw [if_neg hsym]
      by_cases hs : s = firstTruthyD [d.etf_id, d.security_id, d.symbol, d.ticker] ("UNKNOWN")
      · right
        subst hs
        simp [pushPoint, rowLastTs]
      · left
        simp [pushPoint, hs]
  · simp only [hjs]
    left
    trivial

/-- Claim C1: every HistoryPoint the aggregator appends carries the
instrument's full currently-known field set as of the moment of
append, not only the field the triggering record updated.  First
conjunct: every `pushPoint` call appends exactly the patch-merged
latest snapshot (and caches it).  Second conjunct: a prices.* record
with a finite price appends a point carrying the new price together
with the previously known inav and band bounds, unchanged.  Third
conjunct: an inav.* record with a finite inav (in particular one with
no price field — the inav branch never writes the price) appends a
point whose price equals the most recent previously observed price,
unchanged, whose inav is the new value, and whose band bounds are the
new values when finitely supplied, else the previously known ones. -/
theorem forward_fill (topic : String) (ts : JSNum) (d : DataRaw) (st : St) :
    (∀ (sym : String) (t : JSNum) (patch : Patch) (st0 : St),
      (pushPoint sym t patch st0).latest sym = mergeLatest (st0.latest sym) patch ∧
      ((pushPoint sym t patch st0).hist sym).getLast? =
        some ⟨t, (mergeLatest (st0.latest sym) patch).price,
          (mergeLatest (st0.latest sym) patch).inav,
          (mergeLatest (st0.latest sym) patch).bu,
          (mergeLatest (st0.latest sym) patch).bl⟩) ∧
    (jsStartsWith topic ("prices.") = true →
      ∀ p, jsNumber (orJS d.last (orJS d.mid d.price)) = JSNum.fin p →
        ((applyRecord topic ts d st).hist (pricesSym d)).getLast? =
          some ⟨ts, some p, (st.latest (pricesSym d)).inav,
            (st.latest (pricesSym d)).bu, (st.latest (pricesSym d)).bl⟩) ∧
    (jsStartsWith topic ("inav.") = true →
      ∀ v, jsNumber (orJS d.inav d.value) = JSNum.fin v →
        ((applyRecord topic ts d st).latest (inavSym d)).price
            = (st.latest (inavSym d)).price ∧
        ((applyRecord topic ts d st).hist (inavSym d)).getLast? =
          some ⟨ts, (st.latest (inavSym d)).price, some v,
            (match jsNumber (orJS d.band_upper d.bandUpper) with
             | .fin b => some b
             | .nan => (st.latest (inavSym d)).bu),
            (match jsNumber (orJS d.band_lower d.bandLower) with
             | .fin b => some b
             | .nan => (st.latest (inavSym d)).bl)⟩) := by
  refine ⟨?_, ?_, ?_⟩
  · intro sym t patch st0
    constructor
    · simp [pushPoint, mergeLatest]
    · simp [pushPoint, mergeLatest, capPush_getLast?]
  · intro hpt p hp
    have hsym : firstTruthyD [d.security_id, d.symbol, d.ticker] ("UNKNOWN") ≠ "" :=
      firstTruthyD_ne_empty _ _ (by decide)
    simp only [pricesSym]
    unfold applyRecord
    rw [hpt]
    simp only [if_true]
    unfold applyPrices
    rw [hp]
    simp only [if_neg hsym, pushPoint]
    exact capPush_getLast? _ _
  · intro htop v hv
    have hpr := inav_not_prices topic htop
    have hsym : firstTruthyD [d.etf_id, d.security_id, d.symbol, d.ticker] ("UNKNOWN") ≠ "" :=
      firstTruthyD_ne_empty _ _ (by decide)
    simp only [inavSym]
    unfold applyRecord
    rw [hpr, htop]
    simp only [Bool.false_eq_true, if_false, if_true]
    unfold applyInav
    rw [hv]
    simp only [if_neg hsym, pushPoint, capPush_getLast?]
    rcases hbu : jsNumber (orJS d.band_upper d.bandUpper) with b | _ <;>
      rcases hbl : jsNumber (orJS d.band_lower d.bandLower) with c | _ <;>
        simp [hbu, hbl, capPush_getLast?]

/-- Witness for C1 on both topic families: a prices-only record for
ETF appends a point whose inav/band fields are the (empty) known
values, and a subsequent inav-only record appends a point that still
carries the price 101 of the earlier tick. -/
theorem forward_fill_witness :
    ((applyRecord ("prices.tick") (JSNum.fin 1) dETFprice St.init).hist
        (pricesSym dETFprice)).getLast?
      = some ⟨JSNum.fin 1, some 101, none, none, none⟩ ∧
    ((applyRecord ("inav.tick") (JSNum.fin 2) dETF stETF).hist (inavSym dETF)).getLast?
      = some ⟨JSNum.fin 2, some 101, some 100, none, none⟩ := by
  constructor
  · have h := (forward_fill ("prices.tick") (JSNum.fin 1) dETFprice St.init).2.1
      (by decide) 101 rfl
    rw [h]
    decide
  · have h := ((forward_fill ("inav.tick") (JSNum.fin 2) dETF stETF).2.2
      (by decide) 100 rfl).2
    rw [h]
    decide

/-- Claim C2: for every processed record with a finite resolved
timestamp, the snapshot's lastTs is monotonically non-decreasing — it
is updated with max, not assignment — for every instrument symbol. -/
theorem lastTs_monotone (topic : String) (tq : ℚ) (d : DataRaw) (st : St) (s : String) :
    lastTsOrZero (st.rows s)
        ≤ lastTsOrZero ((applyRecord topic (JSNum.fin tq) d st).rows s) ∧
    ∀ q0, rowLastTs (st.rows s) = some (JSNum.fin q0) →
      ∃ q1, rowLastTs ((applyRecord topic (JSNum.fin tq) d st).rows s)
          = some (JSNum.fin q1) ∧ q0 ≤ q1 := by
  have hdisj : ((applyRecord topic (JSNum.fin tq) d st).rows s = st.rows s) ∨
      rowLastTs ((applyRecord topic (JSNum.fin tq) d st).rows s)
        = some (jsMax (JSNum.fin tq) (lastTsOrZero (st.rows s))) := by
    unfold applyRecord
    by_cases hp : jsStartsWith topic ("prices.") = true
    · simp only [hp, if_true]
      exact applyPrices_rows_lastTs (JSNum.fin tq) d _ s
    · simp only [hp]
      by_cases hi : jsStartsWith topic ("inav.") = true
      · simp only [hi, if_true, Bool.false_eq_true, if_false]
        exact applyInav_rows_lastTs (JSNum.fin tq) d _ s
      · simp only [hi]
        left
        rfl
  rcases hdisj with h | h
  · constructor
    · rw [h]
    · intro q0 hq0
      exact ⟨q0, by rw [h]; exact hq0, le_refl q0⟩
  · have hz : lastTsOrZero ((applyRecord topic (JSNum.fin tq) d st).rows s)
        = max tq (lastTsOrZero (st.rows s)) := by
      apply lastTsOrZero_of
      simpa [jsMax] using h
    constructor
    · rw [hz]
      exact le_max_right _ _
    · intro q0 hq0
      refine ⟨max tq (lastTsOrZero (st.rows s)), by simpa [jsMax] using h, ?_⟩
      rw [lastTsOrZero_of (st.rows s) q0 hq0]
      exact le_max_right tq q0

/-- Witness for C2: a tick at time 5 after one at time 7 leaves lastTs
at least 7. -/
theorem lastTs_monotone_witness :
    ∃ q1, rowLastTs ((applyRecord ("prices.tick") (JSNum.fin 5) dY stY).rows ("Y"))
        = some (JSNum.fin q1) ∧ 7 ≤ q1 :=
  (lastTs_monotone ("prices.tick") 5 dY stY ("Y")).2 7 (by decide)

/-- Claim C9, amended: the timestamp is resolved from the payload ts,
else the envelope ts, else the current time; a numeric ts is epoch
milliseconds, a string ts goes through the date parser, any other type
yields the current time, and resolution is a total function (never
throws) — but an unparseable string yields an invalid (NaN) timestamp,
not the current time. -/
theorem ts_resolution (dParse : String → Option ℚ) (b : Option TsVal)
    (now q : ℚ) (s : String) :
    resolveTs dParse (some (TsVal.num q)) b now = JSNum.fin q ∧
    resolveTs dParse (some (TsVal.str s)) b now = toMs dParse (TsVal.str s) ∧
    resolveTs dParse (some TsVal.other) b now = JSNum.fin now ∧
    resolveTs dParse none (some (TsVal.num q)) now = JSNum.fin q ∧
    resolveTs dParse none (some (TsVal.str s)) now = toMs dParse (TsVal.str s) ∧
    resolveTs dParse none (some TsVal.other) now = JSNum.fin now ∧
    resolveTs dParse none none now = JSNum.fin now ∧
    toMs dParse (TsVal.num q) = JSNum.fin q ∧
    (∀ q', dParse s = some q' → toMs dParse (TsVal.str s) = JSNum.fin q') ∧
    (dParse s = none → resolveTs dParse (some (TsVal.str s)) b now = JSNum.nan) := by
  refine ⟨rfl, rfl, rfl, rfl, rfl, rfl, rfl, rfl, ?_, ?_⟩
  · intro q' h
    simp [toMs, h]
  · intro h
    simp [resolveTs, toMs, h]

/-- Witness for C9's amended claim: a parseable string resolves to its
parse, an unparseable one to NaN. -/
theorem ts_resolution_witness :
    toMs (fun u => if u = "2024-01-01" then some 5 else none) (TsVal.str "2024-01-01")
        = JSNum.fin 5 ∧
    resolveTs (fun _ => none) (some (TsVal.str "zzz")) none 7 = JSNum.nan := by
  constructor
  · exact (ts_resolution (fun u => if u = "2024-01-01" then some 5 else none) none 7 0
      "2024-01-01").2.2.2.2.2.2.2.2.1 5 (by decide)
  · exact (ts_resolution (fun _ => none) none 7 0 "zzz").2.2.2.2.2.2.2.2.2 rfl

/-- Counterexample to C9 as stated: with the host date parser failing
on the malformed string (Date.parse returns NaN there), the resolved
timestamp is NaN, not the best-effort default of the current time. -/
theorem ts_malformed_counterexample :
    resolveTs (fun _ => none) (some (TsVal.str "not-a-date")) none 999 = JSNum.nan ∧
    JSNum.nan ≠ JSNum.fin 999 := ⟨rfl, by decide⟩

/-- Claim C7 (divergence exhibit): in the canonical hook, a frame
whose first document is valid and whose second fails to parse yields
exactly one snapshot update and only a recorded (non-fatal) error; but
when the malformed document comes first, the remaining valid document
of the same frame is NOT processed (zero updates), whereas the
instrumented variant of the hook skips the malformed document and
still processes the valid one, as the specification demands. -/
theorem frame_parse_isolation :
    ((onFrame parseEx (fun _ => none) 1000 St.init frameGoodBad).rows ("X") = some rowX ∧
     (onFrame parseEx (fun _ => none) 1000 St.init frameGoodBad).debugCount = 1 ∧
     (onFrame parseEx (fun _ => none) 1000 St.init frameGoodBad).lastError
        = some ("onmessage")) ∧
    ((onFrame parseEx (fun _ => none) 1000 St.init frameBadGood).rows ("X") = none ∧
     (onFrame parseEx (fun _ => none) 1000 St.init frameBadGood).debugCount = 0) ∧
    (onFrameIsolated parseEx (fun _ => none) 1000 St.init frameBadGood).rows ("X")
        = some rowX := by
  refine ⟨⟨?_, ?_, ?_⟩, ⟨?_, ?_⟩, ?_⟩ <;> rfl
